import Mathlib

/-!
Verification of the bounded thread-pool executor library.

The development shallowly embeds the C++ sources:
  - src/unnamed/part_000 (ubqueue.h): the cancellable FIFO `Queue`;
  - src/src/executors.cpp and src/include/executors/executors.h:
    the `Task` state machine (TryExecute, Cancel, gates), the typed
    `Future` result slot with `Get`, the `Executor` worker loop,
    `Submit`, and the combinators WhenFirst and WhenAllBeforeDeadline.

Modelling conventions:
  - Machine time points (`Clock::time_point`) are natural numbers.
  - A task refers to its dependency and trigger tasks through shared
    pointers; the embedding stores their identifiers (`Nat`) and reads
    their instantaneous states through an environment `Nat → TaskState`,
    the snapshot TryExecute observes under the task mutex.
  - The user body (`Run`, i.e. the stored function of `Future`) is
    opaque to the scheduler; its outcome at the moment it is invoked is
    passed in as a `RunOutcome`: a returned value or a thrown exception
    payload.
  - `std::exception_ptr` is `Option ε` (`none` models the null pointer).
  - The embedding flattens `Future<T>` into `Task`: the `result` field
    is the `result_` slot of `Future<T>` (default-constructed at
    creation), unused by plain tasks.
  - Blocking primitives are modelled by their return conditions:
    `Queue.pop` yields `none` when the call would block forever, and
    `Task.Wait`/`Future::Get` return exactly when the state is finished.
-/

namespace Exec

/-- The five task states of the C++ enum `TaskState`. -/
inductive TaskState : Type where
  | Pending : TaskState
  | Running : TaskState
  | Completed : TaskState
  | Failed : TaskState
  | Canceled : TaskState
deriving DecidableEq, Repr

/-- `Task::IsFinished`: the state differs from `Pending` and from `Running`. -/
def TaskState.isFinished : TaskState → Bool
  | .Pending => false
  | .Running => false
  | _ => true

/-- Outcome of one invocation of the user body: a normal return carrying
the produced value, or a thrown exception carrying its payload. -/
inductive RunOutcome (α ε : Type) : Type where
  | success : α → RunOutcome α ε
  | failure : ε → RunOutcome α ε
deriving DecidableEq, Repr

/-- The task object: state atom, gate lists (identifiers of the
dependency and trigger tasks), time trigger, captured exception slot,
and the `result_` slot of `Future<T>`. -/
structure Task (α ε : Type) : Type where
  state : TaskState
  dependencies : List Nat
  triggers : List Nat
  timeTrigger : Nat
  exception : Option ε
  result : α
deriving DecidableEq, Repr

/-- A freshly constructed task: `Pending`, no gates, time trigger set to
the construction instant `t0` (`Clock::now()`), null exception slot,
default-constructed result. -/
def Task.new {α ε : Type} [Inhabited α] (t0 : Nat) : Task α ε :=
  { state := .Pending
    dependencies := []
    triggers := []
    timeTrigger := t0
    exception := none
    result := default }

/-- `Task::AddDependency`: push_back onto the dependency list. -/
def Task.addDependency {α ε : Type} (t : Task α ε) (i : Nat) : Task α ε :=
  { t with dependencies := t.dependencies ++ [i] }

/-- `Task::AddTrigger`: push_back onto the trigger list. -/
def Task.addTrigger {α ε : Type} (t : Task α ε) (i : Nat) : Task α ε :=
  { t with triggers := t.triggers ++ [i] }

/-- `Task::SetTimeTrigger`: overwrite the time trigger. -/
def Task.setTimeTrigger {α ε : Type} (t : Task α ε) (at' : Nat) : Task α ε :=
  { t with timeTrigger := at' }

/-- `Task::GetError`: return the exception slot as is. -/
def Task.getError {α ε : Type} (t : Task α ε) : Option ε :=
  t.exception

/-- The dependency part of the gate in `Task::TryExecute`: the loop over
`dependencies_` returns early unless every one is finished. -/
def Task.gateDeps {α ε : Type} (env : Nat → TaskState) (t : Task α ε) : Bool :=
  t.dependencies.all fun i => (env i).isFinished

/-- The trigger part of the gate in `Task::TryExecute`:
`is_trigger_happened` starts as `triggers_.empty()` and is or-ed with
`IsFinished` of every trigger. -/
def Task.gateTriggers {α ε : Type} (env : Nat → TaskState) (t : Task α ε) : Bool :=
  t.triggers.isEmpty || t.triggers.any fun i => (env i).isFinished

/-- The tail of `Task::TryExecute` after the compare-and-set to
`Running` succeeded: `Run()` is invoked; on normal return the state is
set to `Completed` (with `result_` written by `Future<T>::Run`), on a
throw the exception is captured and the state is set to `Failed`. -/
def Task.runBody {α ε : Type} (b : RunOutcome α ε) (t : Task α ε) : Task α ε :=
  match b with
  | .success v => { t with state := .Completed, result := v }
  | .failure e => { t with state := .Failed, exception := some e }

/-- `Task::TryExecute` observed at one instant: `env` gives the states
of the referenced tasks, `now` is `Clock::now()`, and `b` is the outcome
the user body would produce if invoked. Returns the task afterwards and
whether the body was invoked. The checks appear in source order:
dependencies, triggers, time trigger, then the `Pending` check and the
compare-and-set to `Running`. -/
def Task.tryExecute {α ε : Type} (env : Nat → TaskState) (now : Nat)
    (b : RunOutcome α ε) (t : Task α ε) : Task α ε × Bool :=
  if Task.gateDeps env t = false then (t, false)
  else if Task.gateTriggers env t = false then (t, false)
  else if now < t.timeTrigger then (t, false)
  else if t.state ≠ .Pending then (t, false)
  else (Task.runBody b { t with state := .Running }, true)

/-- `Task::Cancel`: compare-and-set `Pending → Canceled`; any other
state is left untouched. -/
def Task.cancel {α ε : Type} (t : Task α ε) : Task α ε :=
  if t.state = .Pending then { t with state := .Canceled } else t

/-- `Future<T>::Get` after `Wait()` has returned (so the state is
finished): rethrow `GetError()` when `IsFailed()`, otherwise return the
result slot. -/
def Task.get {α ε : Type} (t : Task α ε) : Except (Option ε) α :=
  if t.state = .Failed then .error t.getError else .ok t.result

/-- The cancellable unbounded FIFO queue of ubqueue.h: pending elements
front first, plus the sticky `is_canceled_` flag. -/
structure Queue (α : Type) : Type where
  data : List α
  canceled : Bool
deriving DecidableEq, Repr

/-- `Queue::IsCanceled`. -/
def Queue.isCanceled {α : Type} (q : Queue α) : Bool :=
  q.canceled

/-- `Queue::Push`: reject when canceled, otherwise append at the tail.
Returns the queue afterwards and the boolean result. -/
def Queue.push {α : Type} (q : Queue α) (x : α) : Queue α × Bool :=
  if q.canceled then (q, false)
  else ({ q with data := q.data ++ [x] }, true)

/-- `Queue::Pop`: wait until the queue is canceled or non-empty; then
yield `none` when canceled and drained, otherwise remove and return the
head. The outer `none` marks the case where the wait never returns. -/
def Queue.pop {α : Type} (q : Queue α) : Option (Queue α × Option α) :=
  if q.canceled || !q.data.isEmpty then
    if q.canceled && q.data.isEmpty then some (q, none)
    else
      match q.data with
      | [] => some (q, none)
      | x :: rest => some ({ q with data := rest }, some x)
  else none

/-- `Queue::Cancel`: set the sticky flag. -/
def Queue.cancel {α : Type} (q : Queue α) : Queue α :=
  { q with canceled := true }

/-- Repeatedly pop, collecting the returned elements, with explicit
fuel; used to state the FIFO drain behaviour of a canceled queue. -/
def Queue.drainFuel {α : Type} : Nat → Queue α → List α
  | 0, _ => []
  | n + 1, q =>
    match Queue.pop q with
    | some (q', some x) => x :: Queue.drainFuel n q'
    | _ => []

/-- `Executor::Submit`: when the scheduler queue is canceled, cancel the
task and do not enqueue; otherwise enqueue exactly when the task is
still `Pending`. Returns the queue and the task as observable after the
call. -/
def Executor.submit {α ε : Type} (q : Queue (Task α ε)) (t : Task α ε) :
    Queue (Task α ε) × Task α ε :=
  if Queue.isCanceled q then (q, Task.cancel t)
  else if t.state = .Pending then ((Queue.push q t).1, t)
  else (q, t)

/-- One iteration of the worker-thread loop in the `Executor`
constructor: pop; exit on nullopt; skip a canceled task; otherwise call
`TryExecute` and re-push when the task is still not finished. `none`
means the pop blocks forever; `some (q, none)` means the worker exits;
`some (q, some t)` is one completed iteration whose processed task value
is `t`. The null-pointer check of the loop never fires because `Submit`
only pushes live tasks, so queue elements are task values. -/
def Executor.workerStep {α ε : Type} (env : Nat → TaskState) (now : Nat)
    (b : RunOutcome α ε) (q : Queue (Task α ε)) :
    Option (Queue (Task α ε) × Option (Task α ε)) :=
  match Queue.pop q with
  | none => none
  | some (q', none) => some (q', none)
  | some (q', some t) =>
    if t.state = .Canceled then some (q', some t)
    else
      let t' := (Task.tryExecute env now b t).1
      if t'.state.isFinished then some (q', some t')
      else some ((Queue.push q' t').1, some t')

/-- The worker-thread loop iterated with fuel: collects the processed
task values in order and returns the final queue. -/
def Executor.workerLoop {α ε : Type} (env : Nat → TaskState) (now : Nat)
    (b : RunOutcome α ε) : Nat → Queue (Task α ε) → List (Task α ε) × Queue (Task α ε)
  | 0, q => ([], q)
  | fuel + 1, q =>
    match Executor.workerStep env now b q with
    | none => ([], q)
    | some (q', none) => ([], q')
    | some (q', some t) =>
      let r := Executor.workerLoop env now b fuel q'
      (t :: r.1, r.2)

/-- The effect of one worker iteration on the popped task itself: a
canceled task is skipped unchanged, any other goes through `TryExecute`. -/
def Executor.processOne {α ε : Type} (env : Nat → TaskState) (now : Nat)
    (b : RunOutcome α ε) (t : Task α ε) : Task α ε :=
  if t.state = .Canceled then t else (Task.tryExecute env now b t).1

/-- The task built by `Executor::WhenFirst`: a fresh future (created at
instant `t0`) with every element of the input vector added as a trigger. -/
def Executor.whenFirstTask {α ε : Type} [Inhabited α] (ids : List Nat) (t0 : Nat) :
    Task α ε :=
  ids.foldl (fun acc i => Task.addTrigger acc i) (Task.new t0)

/-- The scan loop of the `WhenFirst` body: return `Get()` of the first
finished element, or nothing when no element is finished. -/
def Executor.whenFirstScan {α ε : Type} : List (Task α ε) → Option (Except (Option ε) α)
  | [] => none
  | t :: rest =>
    if t.state.isFinished then some (Task.get t) else Executor.whenFirstScan rest

/-- The body of the `WhenFirst` future, evaluated on a snapshot of the
input tasks: scan for the first finished element; when none is finished
fall back to `all.front()->Get()`. The result `none` marks the
out-of-bounds `front()` on an empty vector (undefined behaviour in the
source). -/
def Executor.whenFirstBody {α ε : Type} (all : List (Task α ε)) :
    Option (Except (Option ε) α) :=
  match Executor.whenFirstScan all with
  | some r => some r
  | none =>
    match all with
    | [] => none
    | t :: _ => some (Task.get t)

/-- The task built by `Executor::WhenAllBeforeDeadline`: a fresh future
(created at instant `t0`) whose time trigger is then set to `deadline`;
no dependencies or triggers are added. -/
def Executor.whenAllBeforeDeadlineTask {α ε : Type} [Inhabited α]
    (deadline t0 : Nat) : Task α ε :=
  Task.setTimeTrigger (Task.new t0) deadline

/-- The body of the `WhenAllBeforeDeadline` future, evaluated on a
snapshot of the input tasks: push `Get()` of every finished element in
input order; a throw from `Get()` propagates out of the body. -/
def Executor.whenAllBeforeDeadlineBody {α ε : Type} :
    List (Task α ε) → Except (Option ε) (List α)
  | [] => .ok []
  | t :: rest =>
    if t.state.isFinished then
      match Task.get t with
      | .error e => .error e
      | .ok v =>
        match Executor.whenAllBeforeDeadlineBody rest with
        | .error e => .error e
        | .ok vs => .ok (v :: vs)
    else Executor.whenAllBeforeDeadlineBody rest

/-- The transitions drawn in the state diagram of the specification. -/
def legalTransition : TaskState → TaskState → Bool
  | .Pending, .Running => true
  | .Running, .Completed => true
  | .Running, .Failed => true
  | .Pending, .Canceled => true
  | _, _ => false

/-- One observed step of a task state: unchanged, or one legal
transition. -/
def LegalStep (s s' : TaskState) : Prop :=
  s = s' ∨ legalTransition s s' = true

/-- The states a task passes through during one `TryExecute` call: when
the body is invoked, the task goes from its initial state through
`Running` to the settled state; otherwise the state is untouched. -/
def Task.tryExecuteTrace {α ε : Type} (env : Nat → TaskState) (now : Nat)
    (b : RunOutcome α ε) (t : Task α ε) : List TaskState :=
  if (Task.tryExecute env now b t).2 then
    [t.state, TaskState.Running, (Task.tryExecute env now b t).1.state]
  else [t.state]

/-- The state-mutating operations of the public `Task` interface, as a
step relation: one call to `TryExecute` (at any instant, environment and
body outcome), `Cancel`, or one of the gate setters. -/
inductive TaskStep {α ε : Type} : Task α ε → Task α ε → Prop where
  | tryExec (env : Nat → TaskState) (now : Nat) (b : RunOutcome α ε) (t : Task α ε) :
      TaskStep t (Task.tryExecute env now b t).1
  | cancel (t : Task α ε) : TaskStep t (Task.cancel t)
  | addDep (t : Task α ε) (i : Nat) : TaskStep t (Task.addDependency t i)
  | addTrig (t : Task α ε) (i : Nat) : TaskStep t (Task.addTrigger t i)
  | setTime (t : Task α ε) (d : Nat) : TaskStep t (Task.setTimeTrigger t d)

/-- A task value reachable from a fresh task (constructed at instant
`t0`) through the public interface. -/
def TaskReachable {α ε : Type} [Inhabited α] (t0 : Nat) (t : Task α ε) : Prop :=
  Relation.ReflTransGen TaskStep (Task.new t0) t

theorem gateDeps_eq_true_iff {α ε : Type} (env : Nat → TaskState) (t : Task α ε) :
    Task.gateDeps env t = true ↔ ∀ i ∈ t.dependencies, (env i).isFinished = true := by
  simp [Task.gateDeps, List.all_eq_true]

theorem gateTriggers_eq_true_iff {α ε : Type} (env : Nat → TaskState) (t : Task α ε) :
    Task.gateTriggers env t = true ↔
      (t.triggers = [] ∨ ∃ i ∈ t.triggers, (env i).isFinished = true) := by
  simp [Task.gateTriggers, List.any_eq_true, List.isEmpty_iff]

theorem tryExecute_not_run {α ε : Type} {env : Nat → TaskState} {now : Nat}
    {b : RunOutcome α ε} {t : Task α ε}
    (h : (Task.tryExecute env now b t).2 = false) :
    Task.tryExecute env now b t = (t, false) := by
  unfold Task.tryExecute at *
  split_ifs at * <;> simp_all

theorem tryExecute_run_iff {α ε : Type} (env : Nat → TaskState) (now : Nat)
    (b : RunOutcome α ε) (t : Task α ε) :
    (Task.tryExecute env now b t).2 = true ↔
      (Task.gateDeps env t = true ∧ Task.gateTriggers env t = true ∧
       t.timeTrigger ≤ now ∧ t.state = TaskState.Pending) := by
  unfold Task.tryExecute
  split_ifs with h1 h2 h3 h4 <;> simp_all

theorem tryExecute_run_eq {α ε : Type} {env : Nat → TaskState} {now : Nat}
    {b : RunOutcome α ε} {t : Task α ε}
    (h : (Task.tryExecute env now b t).2 = true) :
    (Task.tryExecute env now b t).1 = Task.runBody b { t with state := .Running } := by
  unfold Task.tryExecute at *
  split_ifs at * with h1 h2 h3 h4
  rfl

/-- Claim C1: the body of a task is invoked by `TryExecute` exactly when
every dependency is finished, the trigger list is empty or some trigger
is finished, the current time is at or past the time trigger, and the
state is `Pending`; when any of these fails, the call returns with the
task unchanged. -/
theorem c1_gate_correctness {α ε : Type} (env : Nat → TaskState) (now : Nat)
    (b : RunOutcome α ε) (t : Task α ε) :
    ((Task.tryExecute env now b t).2 = true ↔
      ((∀ i ∈ t.dependencies, (env i).isFinished = true) ∧
       (t.triggers = [] ∨ ∃ i ∈ t.triggers, (env i).isFinished = true) ∧
       t.timeTrigger ≤ now ∧
       t.state = TaskState.Pending)) ∧
    ((Task.tryExecute env now b t).2 = false →
      Task.tryExecute env now b t = (t, false)) := by
  constructor
  · rw [tryExecute_run_iff, gateDeps_eq_true_iff, gateTriggers_eq_true_iff]
  · exact fun h => tryExecute_not_run h

/-- Witness for C1: a task with one finished dependency, an empty
trigger list and an expired time trigger is run. -/
theorem c1_gate_correctness_witness :
    (Task.tryExecute (fun _ => TaskState.Completed) 5 (RunOutcome.success 1)
      (Task.addDependency (Task.new 0) 0 : Task Nat Nat)).2 = true :=
  (c1_gate_correctness (fun _ => TaskState.Completed) 5 (RunOutcome.success 1)
    (Task.addDependency (Task.new 0) 0)).1.mpr (by decide)

theorem drainFuel_canceled {α : Type} (l : List α) :
    Queue.drainFuel l.length ⟨l, true⟩ = l := by
  induction l with
  | nil => rfl
  | cons x rest ih => simp [Queue.drainFuel, Queue.pop, ih]

/-- Claim C4: once the queue is canceled, `Push` rejects with `false`
and changes nothing; popping still drains the already-enqueued elements
in FIFO push order, and a pop yields the empty answer exactly when the
queue is canceled and drained. -/
theorem c4_queue_cancel {α : Type} (q : Queue α) (x : α) :
    Queue.push (Queue.cancel q) x = (Queue.cancel q, false) ∧
    (Queue.cancel q).data = q.data ∧
    Queue.drainFuel q.data.length (Queue.cancel q) = q.data ∧
    (∀ p p' : Queue α, Queue.pop p = some (p', none) →
      p.canceled = true ∧ p.data = []) ∧
    (∀ p : Queue α, p.canceled = true → p.data = [] →
      Queue.pop p = some (p, none)) := by
  refine ⟨by simp [Queue.push, Queue.cancel], rfl, ?_, ?_, ?_⟩
  · have : Queue.cancel q = ⟨q.data, true⟩ := rfl
    rw [this]
    exact drainFuel_canceled q.data
  · rintro ⟨data, c⟩ p' h
    cases c <;> cases data <;> simp_all [Queue.pop]
  · rintro ⟨data, c⟩ hc hd
    subst hc
    subst hd
    rfl

/-- Witness for C4: applying the theorem at a concrete one-element
queue, the pop-empty condition is recovered at the canceled empty queue. -/
theorem c4_queue_cancel_witness :
    Queue.pop (⟨[], true⟩ : Queue Nat) = some (⟨[], true⟩, none) :=
  (c4_queue_cancel (⟨[7], false⟩ : Queue Nat) 3).2.2.2.2 ⟨[], true⟩ rfl rfl

/-- Claim C2: states move only along the legal transitions. The states
visited by a `TryExecute` call form a legal path starting at the old
state and ending at the new one; `Cancel` performs a legal step; a
`Running` task is never turned `Canceled`; the terminal states are left
untouched by every operation; the gate setters never change the state. -/
theorem c2_state_transitions {α ε : Type} :
    (∀ (env : Nat → TaskState) (now : Nat) (b : RunOutcome α ε) (t : Task α ε),
      List.Chain' LegalStep (Task.tryExecuteTrace env now b t) ∧
      (Task.tryExecuteTrace env now b t).head? = some t.state ∧
      (Task.tryExecuteTrace env now b t).getLast? =
        some (Task.tryExecute env now b t).1.state) ∧
    (∀ t : Task α ε, LegalStep t.state (Task.cancel t).state) ∧
    (∀ t : Task α ε, t.state = TaskState.Running → Task.cancel t = t) ∧
    (∀ t : Task α ε, t.state.isFinished = true →
      Task.cancel t = t ∧
      ∀ (env : Nat → TaskState) (now : Nat) (b : RunOutcome α ε),
        Task.tryExecute env now b t = (t, false)) ∧
    (∀ (t : Task α ε) (i d : Nat),
      (Task.addDependency t i).state = t.state ∧
      (Task.addTrigger t i).state = t.state ∧
      (Task.setTimeTrigger t d).state = t.state) := by
  refine ⟨?_, ?_, ?_, ?_, ?_⟩
  · intro env now b t
    by_cases hrun : (Task.tryExecute env now b t).2 = true
    · have hp : t.state = TaskState.Pending :=
        ((tryExecute_run_iff env now b t).mp hrun).2.2.2
      have h1 := tryExecute_run_eq hrun
      rcases b with v | e <;>
        simp [Task.tryExecuteTrace, hrun, h1, Task.runBody, hp, LegalStep,
          legalTransition]
    · have hf : (Task.tryExecute env now b t).2 = false := by simpa using hrun
      have h1 := tryExecute_not_run hf
      simp [Task.tryExecuteTrace, hf, h1]
  · intro t
    unfold Task.cancel
    split_ifs with h
    · exact Or.inr (by simp [h, legalTransition])
    · exact Or.inl rfl
  · intro t h
    simp [Task.cancel, h]
  · intro t hfin
    have hnp : t.state ≠ TaskState.Pending := by
      cases ht : t.state <;> simp_all [TaskState.isFinished]
    refine ⟨by simp [Task.cancel, hnp], ?_⟩
    intro env now b
    have hf : (Task.tryExecute env now b t).2 = false := by
      by_contra hcon
      exact hnp ((tryExecute_run_iff env now b t).mp (by simpa using hcon)).2.2.2
    exact tryExecute_not_run hf
  · intro t i d
    exact ⟨rfl, rfl, rfl⟩

/-- Witness for C2: cancelling a fresh pending task is a legal step. -/
theorem c2_state_transitions_witness :
    LegalStep TaskState.Pending (Task.cancel (Task.new 0 : Task Nat Nat)).state :=
  (@c2_state_transitions Nat Nat).2.1 (Task.new 0)

/-- The exception slot is populated exactly in state `Failed`. -/
def ExcInv {α ε : Type} (t : Task α ε) : Prop :=
  t.exception.isSome = true ↔ t.state = TaskState.Failed

theorem excInv_step {α ε : Type} {t t' : Task α ε}
    (hs : TaskStep t t') (h : ExcInv t) : ExcInv t' := by
  cases hs with
  | tryExec env now b t =>
    by_cases hrun : (Task.tryExecute env now b t).2 = true
    · have hp : t.state = TaskState.Pending :=
        ((tryExecute_run_iff env now b t).mp hrun).2.2.2
      have h1 := tryExecute_run_eq hrun
      rcases b with v | e <;> simp_all [ExcInv, Task.runBody]
    · have hf : (Task.tryExecute env now b t).2 = false := by simpa using hrun
      rw [tryExecute_not_run hf]
      exact h
  | cancel t =>
    unfold ExcInv Task.cancel at *
    split_ifs with hp <;> simp_all
  | addDep t i => exact h
  | addTrig t i => exact h
  | setTime t d => exact h

theorem taskReachable_excInv {α ε : Type} [Inhabited α] {t0 : Nat}
    {t : Task α ε} (h : TaskReachable t0 t) : ExcInv t := by
  unfold TaskReachable at h
  induction h with
  | refl => simp [ExcInv, Task.new]
  | tail hsteps hstep ih => exact excInv_step hstep ih

/-- Claim C3: a body that throws `e` leaves the task `Failed` with `e`
captured and makes `Get` rethrow an exception carrying the payload `e`;
and over all reachable task values, `GetError` holds a captured
exception exactly when the state is `Failed`. -/
theorem c3_exception_capture {α ε : Type} [Inhabited α] (t0 : Nat) (t : Task α ε)
    (h : TaskReachable t0 t) :
    ((Task.getError t).isSome = true ↔ t.state = TaskState.Failed) ∧
    (∀ (env : Nat → TaskState) (now : Nat) (e : ε),
      (Task.tryExecute env now (RunOutcome.failure e) t).2 = true →
        (Task.tryExecute env now (RunOutcome.failure e) t).1.state = TaskState.Failed ∧
        Task.getError (Task.tryExecute env now (RunOutcome.failure e) t).1 = some e ∧
        Task.get (Task.tryExecute env now (RunOutcome.failure e) t).1 =
          Except.error (some e)) := by
  constructor
  · exact taskReachable_excInv h
  · intro env now e hrun
    have h1 := tryExecute_run_eq hrun
    rw [h1]
    simp [Task.runBody, Task.get, Task.getError]

/-- Witness for C3: a fresh task whose body throws payload 7 ends
`Failed` and `Get` rethrows carrying 7. -/
theorem c3_exception_capture_witness :
    Task.get ((Task.tryExecute (fun _ => TaskState.Pending) 5 (RunOutcome.failure 7)
      (Task.new 0 : Task Nat Nat)).1) = Except.error (some 7) :=
  ((c3_exception_capture 0 (Task.new 0) Relation.ReflTransGen.refl).2
    (fun _ => TaskState.Pending) 5 7 (by decide)).2.2

/-- The result slot still holds the default-constructed value unless the
task completed. -/
def ResultInv {α ε : Type} [Inhabited α] (t : Task α ε) : Prop :=
  t.state ≠ TaskState.Completed → t.result = default

theorem resultInv_step {α ε : Type} [Inhabited α] {t t' : Task α ε}
    (hs : TaskStep t t') (h : ResultInv t) : ResultInv t' := by
  cases hs with
  | tryExec env now b t =>
    by_cases hrun : (Task.tryExecute env now b t).2 = true
    · have hp : t.state = TaskState.Pending :=
        ((tryExecute_run_iff env now b t).mp hrun).2.2.2
      have h1 := tryExecute_run_eq hrun
      rcases b with v | e <;> simp_all [ResultInv, Task.runBody]
    · have hf : (Task.tryExecute env now b t).2 = false := by simpa using hrun
      rw [tryExecute_not_run hf]
      exact h
  | cancel t =>
    unfold ResultInv Task.cancel at *
    split_ifs with hp <;> simp_all
  | addDep t i => exact h
  | addTrig t i => exact h
  | setTime t d => exact h

theorem taskReachable_resultInv {α ε : Type} [Inhabited α] {t0 : Nat}
    {t : Task α ε} (h : TaskReachable t0 t) : ResultInv t := by
  unfold TaskReachable at h
  induction h with
  | refl => simp [ResultInv, Task.new]
  | tail hsteps hstep ih => exact resultInv_step hstep ih

/-- Claim C8: a reachable task in state `Canceled` is finished (so
`Wait` and hence `Get` return), is not `Failed` (so `Get` does not
rethrow), and `Get` yields the default-constructed value because the
body never wrote the result slot. -/
theorem c8_canceled_get_default {α ε : Type} [Inhabited α] (t0 : Nat)
    (t : Task α ε) (h : TaskReachable t0 t) (hc : t.state = TaskState.Canceled) :
    TaskState.isFinished t.state = true ∧
    t.state ≠ TaskState.Failed ∧
    Task.get t = Except.ok (default : α) := by
  have hres : t.result = default :=
    taskReachable_resultInv h (by simp [hc])
  refine ⟨by simp [hc, TaskState.isFinished], by simp [hc], ?_⟩
  simp [Task.get, hc, hres]

/-- Witness for C8: `Get` on a freshly created then cancelled task of
naturals returns the default value 0 without raising. -/
theorem c8_canceled_get_default_witness :
    Task.get (Task.cancel (Task.new 0 : Task Nat Nat)) = Except.ok 0 :=
  (c8_canceled_get_default 0 (Task.cancel (Task.new 0))
    (Relation.ReflTransGen.single (TaskStep.cancel (Task.new 0))) (by decide)).2.2

/-- Counterexample to C5 as stated: `Submit` after shutdown calls
`Task::Cancel`, which only moves `Pending` to `Canceled`; a task that
already completed (here: one driven to `Completed` by a direct
`TryExecute` call) is left `Completed`, not `Canceled`. -/
theorem c5_submit_after_shutdown_counterexample :
    Queue.isCanceled (⟨[], true⟩ : Queue (Task Nat Nat)) = true ∧
    (Executor.submit (⟨[], true⟩ : Queue (Task Nat Nat))
      ((Task.tryExecute (fun _ => TaskState.Pending) 0 (RunOutcome.success 1)
        (Task.new 0 : Task Nat Nat)).1)).2.state = TaskState.Completed ∧
    TaskState.Completed ≠ TaskState.Canceled := by
  decide

/-- Claim C5 amended: when `Submit` runs after `StartShutdown`, the task
is not enqueued and `Cancel` is invoked on it, so a still-`Pending` task
ends `Canceled` while an already-finished task keeps its state;
otherwise `Submit` enqueues the task exactly when it is still `Pending`. -/
theorem c5_submit_after_shutdown_amended {α ε : Type} (q : Queue (Task α ε))
    (t : Task α ε) :
    (q.canceled = true →
      (Executor.submit q t).1 = q ∧
      (Executor.submit q t).2 = Task.cancel t ∧
      (t.state = TaskState.Pending →
        (Executor.submit q t).2.state = TaskState.Canceled) ∧
      (t.state.isFinished = true → (Executor.submit q t).2.state = t.state)) ∧
    (q.canceled = false →
      (Executor.submit q t).2 = t ∧
      (t.state = TaskState.Pending → (Executor.submit q t).1.data = q.data ++ [t]) ∧
      (t.state ≠ TaskState.Pending → (Executor.submit q t).1 = q)) := by
  constructor
  · intro hc
    have hs : Executor.submit q t = (q, Task.cancel t) := by
      simp [Executor.submit, Queue.isCanceled, hc]
    refine ⟨by simp [hs], by simp [hs], ?_, ?_⟩
    · intro hp
      simp [hs, Task.cancel, hp]
    · intro hfin
      have hnp : t.state ≠ TaskState.Pending := by
        cases ht : t.state <;> simp_all [TaskState.isFinished]
      simp [hs, Task.cancel, hnp]
  · intro hc
    by_cases hp : t.state = TaskState.Pending
    · have hs : Executor.submit q t = ((Queue.push q t).1, t) := by
        simp [Executor.submit, Queue.isCanceled, hc, hp]
      refine ⟨by simp [hs], ?_, ?_⟩
      · intro
        simp [hs, Queue.push, hc]
      · intro hnp
        exact absurd hp hnp
    · have hs : Executor.submit q t = (q, t) := by
        simp [Executor.submit, Queue.isCanceled, hc, hp]
      exact ⟨by simp [hs], fun h => absurd h hp, fun _ => by simp [hs]⟩

/-- Witness for C5 amended: a pending task submitted to a canceled
scheduler queue ends in state `Canceled`. -/
theorem c5_submit_after_shutdown_amended_witness :
    (Executor.submit (⟨[], true⟩ : Queue (Task Nat Nat)) (Task.new 0)).2.state =
      TaskState.Canceled :=
  ((c5_submit_after_shutdown_amended ⟨[], true⟩ (Task.new 0)).1 rfl).2.2.1 rfl

theorem foldl_addTrigger {α ε : Type} (ids : List Nat) (t : Task α ε) :
    ids.foldl (fun acc i => Task.addTrigger acc i) t =
      { t with triggers := t.triggers ++ ids } := by
  induction ids generalizing t with
  | nil => simp
  | cons i rest ih =>
    rw [List.foldl_cons, ih]
    simp [Task.addTrigger]

theorem whenFirstScan_find {α ε : Type} (all : List (Task α ε)) (ft : Task α ε)
    (h : all.find? (fun x => x.state.isFinished) = some ft) :
    Executor.whenFirstScan all = some (Task.get ft) := by
  induction all with
  | nil => simp at h
  | cons t rest ih =>
    cases hf : t.state.isFinished with
    | true =>
      have hfind : (t :: rest).find? (fun x => x.state.isFinished) = some t := by
        simp [List.find?_cons, hf]
      rw [hfind] at h
      obtain rfl : t = ft := Option.some.inj h
      simp [Executor.whenFirstScan, hf]
    | false =>
      have hfind : (t :: rest).find? (fun x => x.state.isFinished) =
          rest.find? (fun x => x.state.isFinished) := by
        simp [List.find?_cons, hf]
      rw [hfind] at h
      simp [Executor.whenFirstScan, hf, ih h]

/-- Claim C6: the `WhenFirst` future carries every input element as a
trigger and no dependency, and whenever some input is finished its body
returns `Get()` of the first finished input in input order (so input
order is the tiebreaker). -/
theorem c6_whenFirst {α ε : Type} [Inhabited α] (ids : List Nat) (t0 : Nat) :
    (Executor.whenFirstTask ids t0 : Task α ε).triggers = ids ∧
    (Executor.whenFirstTask ids t0 : Task α ε).dependencies = [] ∧
    (∀ (all : List (Task α ε)) (ft : Task α ε),
      all.find? (fun x => x.state.isFinished) = some ft →
      Executor.whenFirstBody all = some (Task.get ft)) := by
  refine ⟨?_, ?_, ?_⟩
  · simp [Executor.whenFirstTask, foldl_addTrigger, Task.new]
  · simp [Executor.whenFirstTask, foldl_addTrigger, Task.new]
  · intro all ft h
    simp [Executor.whenFirstBody, whenFirstScan_find all ft h]

/-- Witness for C6: with a single already-canceled (hence finished)
input, the body returns `Get()` of that input. -/
theorem c6_whenFirst_witness :
    Executor.whenFirstBody [Task.cancel (Task.new 0 : Task Nat Nat)] =
      some (Task.get (Task.cancel (Task.new 0))) :=
  (c6_whenFirst [5] 0).2.2 [Task.cancel (Task.new 0)]
    (Task.cancel (Task.new 0)) (by decide)

/-- Claim C7: the `WhenAllBeforeDeadline` future has no dependencies, no
triggers, and its time trigger is the deadline; its body produces the
sequence of `Get()` results of exactly the finished inputs, in input
order, omitting unfinished ones. -/
theorem c7_whenAllBeforeDeadline {α ε : Type} [Inhabited α] (deadline t0 : Nat) :
    (Executor.whenAllBeforeDeadlineTask deadline t0 : Task α ε).dependencies = [] ∧
    (Executor.whenAllBeforeDeadlineTask deadline t0 : Task α ε).triggers = [] ∧
    (Executor.whenAllBeforeDeadlineTask deadline t0 : Task α ε).timeTrigger = deadline ∧
    (∀ all : List (Task α ε),
      Executor.whenAllBeforeDeadlineBody all =
        (all.filter fun x => x.state.isFinished).mapM Task.get) := by
  refine ⟨rfl, rfl, rfl, ?_⟩
  intro all
  induction all with
  | nil => rfl
  | cons t rest ih =>
    by_cases hf : t.state.isFinished = true
    · rw [List.filter_cons_of_pos (by simpa using hf), List.mapM_cons]
      simp only [Executor.whenAllBeforeDeadlineBody, hf, if_true, ih]
      cases hg : Task.get t <;>
        cases hr : (rest.filter fun x => x.state.isFinished).mapM Task.get <;>
          simp only [hg, hr] <;> rfl
    · rw [List.filter_cons_of_neg (by simpa using hf)]
      simp [Executor.whenAllBeforeDeadlineBody, hf, ih]

/-- Witness for C7: a finished (canceled) input and an unfinished one:
the body keeps exactly the finished one. -/
theorem c7_whenAllBeforeDeadline_witness :
    Executor.whenAllBeforeDeadlineBody
      [Task.cancel (Task.new 0 : Task Nat Nat), Task.new 0] = Except.ok [0] := by
  have h := (c7_whenAllBeforeDeadline 9 0).2.2.2
    [Task.cancel (Task.new 0 : Task Nat Nat), Task.new 0]
  rw [h]
  rfl

theorem workerStep_canceled_cons {α ε : Type} (env : Nat → TaskState) (now : Nat)
    (b : RunOutcome α ε) (t : Task α ε) (rest : List (Task α ε)) :
    Executor.workerStep env now b ⟨t :: rest, true⟩ =
      some (⟨rest, true⟩, some (Executor.processOne env now b t)) := by
  unfold Executor.workerStep Executor.processOne
  simp only [Queue.pop, Queue.push]
  split_ifs <;> simp_all [Queue.push]

theorem workerLoop_canceled {α ε : Type} (env : Nat → TaskState) (now : Nat)
    (b : RunOutcome α ε) (l : List (Task α ε)) :
    Executor.workerLoop env now b (l.length + 1) ⟨l, true⟩ =
      (l.map (Executor.processOne env now b), ⟨[], true⟩) := by
  induction l with
  | nil => rfl
  | cons t rest ih =>
    show Executor.workerLoop env now b (rest.length + 1 + 1) ⟨t :: rest, true⟩ = _
    rw [Executor.workerLoop, workerStep_canceled_cons]
    simp [ih]

/-- Claim C9: on a canceled scheduler queue, a popped pending task whose
gate is unmet comes out of `TryExecute` unchanged and not finished, the
re-enqueue `Push` is rejected, the worker iteration leaves the queue
without the task, the `Wait` condition stays false, and the remaining
drain of the queue processes only the remaining elements, each exactly
once, ending with an empty queue. -/
theorem c9_worker_drop_after_cancel {α ε : Type} (env : Nat → TaskState)
    (now : Nat) (b : RunOutcome α ε) (q : Queue (Task α ε)) (t : Task α ε)
    (rest : List (Task α ε)) (hc : q.canceled = true) (hd : q.data = t :: rest)
    (hp : t.state = TaskState.Pending)
    (hg : (Task.tryExecute env now b t).2 = false) :
    Queue.pop q = some (⟨rest, true⟩, some t) ∧
    (Task.tryExecute env now b t).1 = t ∧
    (Queue.push ⟨rest, true⟩ ((Task.tryExecute env now b t).1)).2 = false ∧
    Executor.workerStep env now b q = some (⟨rest, true⟩, some t) ∧
    TaskState.isFinished t.state = false ∧
    Executor.workerLoop env now b (rest.length + 1) ⟨rest, true⟩ =
      (rest.map (Executor.processOne env now b), ⟨[], true⟩) := by
  obtain ⟨data, c⟩ := q
  obtain rfl : c = true := hc
  obtain rfl : data = t :: rest := hd
  have ht : (Task.tryExecute env now b t).1 = t := by
    rw [tryExecute_not_run hg]
  have hnc : t.state ≠ TaskState.Canceled := by simp [hp]
  refine ⟨by simp [Queue.pop], ht, by simp [Queue.push], ?_,
    by simp [hp, TaskState.isFinished], workerLoop_canceled env now b rest⟩
  rw [workerStep_canceled_cons]
  simp [Executor.processOne, hnc, ht]

/-- Witness for C9: a pending task with an unfinished dependency, popped
from a canceled one-element queue, is processed once and dropped. -/
theorem c9_worker_drop_after_cancel_witness :
    Executor.workerStep (fun _ => TaskState.Pending) 0 (RunOutcome.success 1)
      (⟨[Task.addDependency (Task.new 0) 0], true⟩ : Queue (Task Nat Nat)) =
      some (⟨[], true⟩, some (Task.addDependency (Task.new 0) 0)) :=
  (c9_worker_drop_after_cancel (fun _ => TaskState.Pending) 0 (RunOutcome.success 1)
    ⟨[Task.addDependency (Task.new 0) 0], true⟩ (Task.addDependency (Task.new 0) 0)
    [] rfl rfl rfl (by decide)).2.2.2.1

/-- Claim C10: `WhenFirst` on an empty vector builds a future with an
empty trigger list, whose gate is trivially satisfied, and whose body
reaches `front()` on the empty vector (the `none` outcome marking the
out-of-bounds access); for every non-empty input the body never reaches
that out-of-bounds access. -/
theorem c10_whenFirst_empty {α ε : Type} [Inhabited α] (t0 : Nat)
    (env : Nat → TaskState) :
    (Executor.whenFirstTask [] t0 : Task α ε).triggers = [] ∧
    Task.gateTriggers env (Executor.whenFirstTask [] t0 : Task α ε) = true ∧
    Task.gateDeps env (Executor.whenFirstTask [] t0 : Task α ε) = true ∧
    Executor.whenFirstBody ([] : List (Task α ε)) = none ∧
    (∀ all : List (Task α ε), all ≠ [] → (Executor.whenFirstBody all).isSome = true) := by
  refine ⟨rfl, rfl, rfl, rfl, ?_⟩
  intro all h
  cases all with
  | nil => exact absurd rfl h
  | cons t rest =>
    unfold Executor.whenFirstBody
    cases hs : Executor.whenFirstScan (t :: rest) <;> simp

/-- Witness for C10: on a one-element vector the body performs no
out-of-bounds access. -/
theorem c10_whenFirst_empty_witness :
    (Executor.whenFirstBody [(Task.new 0 : Task Nat Nat)]).isSome = true :=
  (c10_whenFirst_empty 0 (fun _ => TaskState.Pending)).2.2.2.2
    [(Task.new 0 : Task Nat Nat)] (by simp)

end Exec
